import Mathlib

/-!
# mroutectl: command resolution and the request/reply session

A shallow embedding of `src/mroutectl.c`.

* A C string is the list of its characters before the terminating NUL; one
  `Char` stands for one C `char`.
* A NULL-terminated array (`struct cmd command[]`, `argv`) is the list of its
  entries before the terminator; `argc` is the length of `argv`.
* A function that talks to the outside world returns its C return value
  together with the list of operations it performed, in order (`Op`); what the
  outside world answers is read from a `World` script.
* Constants that come from headers which are not part of the file
  (`defs.h`, `config.h`, `errno.h`) are fields of `Defs`.
-/

namespace Mroutectl

/-- C string: the characters before the terminating NUL. -/
abbrev CString := List Char

/-- The frame `struct ipc` of `defs.h`, as `show_generic` uses it: the fields
`cmd`, `detail` and the text buffer `buf` (read as a C string). -/
structure ipc where
  cmd : Int
  detail : Int
  buf : CString
deriving DecidableEq, Repr

/-- Constants taken from headers outside the file. -/
structure Defs where
  IPC_KILL_CMD : Int
  IPC_SHOW_IFACE_CMD : Int
  IPC_SHOW_IGMP_CMD : Int
  IPC_SHOW_STATUS_CMD : Int
  IPC_RESTART_CMD : Int
  /-- Value of `sizeof(struct ipc)`. -/
  sizeof_ipc : Nat
  PACKAGE_VERSION : CString
  ENOENT : Int
  _PATH_MROUTED_SOCK : CString

/-- One operation on the outside world, with its arguments and (where the code
looks at it) its result. -/
inductive Op where
  | socket (ret : Int)
  | connect (sd : Int) (path : CString) (ret : Int)
  | write (sd : Int) (msg : ipc) (count : Nat) (ret : Int)
  | poll (sd : Int) (timeout : Int) (ret : Int)
  | read (sd : Int) (count : Nat) (ret : Int)
  | close (sd : Int)
  | fputs_stdout (s : CString)
  | printf_stdout (s : CString)
  | fprintf_stderr (s : CString)
  | perror (s : CString)
deriving DecidableEq, Repr

/-- Return value of a C function of type `int` and the operations it performed. -/
abbrev Result := Int × List Op

/-- One turn of the reply loop as the outside world decides it: what `poll`
returns and, for the `read` that follows a positive `poll`, its return value
and the contents of `msg` after it. -/
structure PollRead where
  poll : Int
  len : Int
  msg : ipc
deriving DecidableEq, Repr

/-- What the outside world answers during one run. `replies` lists the turns
of the reply loop; once it is used up the peer has nothing more to send and
`poll` times out (returns 0). -/
structure World where
  socket_ret : Int
  connect_ret : Int
  errno : Int
  write_ret : Int
  replies : List PollRead
  close_ret : Int

/-! ## do_connect, show_generic -/

/-- The `error:` label of `do_connect`. -/
def do_connect_error (D : Defs) (w : World) : List Op :=
  if w.errno = D.ENOENT then
    [Op.fprintf_stderr "Cannot connect to mrouted, verify it has started.\n".toList]
  else
    [Op.perror "Failed connecting to mrouted".toList]

/-- `do_connect`: the descriptor (or -1) and the operations performed. -/
def do_connect (D : Defs) (w : World) : Result :=
  let sd := w.socket_ret
  if -1 = sd then
    (-1, Op.socket sd :: do_connect_error D w)
  else if w.connect_ret = -1 then
    (-1, [Op.socket sd, Op.connect sd D._PATH_MROUTED_SOCK w.connect_ret, Op.close sd]
          ++ do_connect_error D w)
  else
    (sd, [Op.socket sd, Op.connect sd D._PATH_MROUTED_SOCK w.connect_ret])

/-- The `while (poll(&pfd, 1, 2000) > 0)` loop of `show_generic`. The
comparison `len != sizeof(msg)` is between the values: `read` returns -1 or a
count of at most `sizeof(msg)`, and -1 converted to `size_t` is not the size
of an object. -/
def read_loop (D : Defs) (sd : Int) : List PollRead → List Op
  | [] => [Op.poll sd 2000 0]
  | r :: rs =>
    if r.poll > 0 then
      if r.len ≠ (D.sizeof_ipc : Int) ∨ r.msg.cmd ≠ 0 then
        [Op.poll sd 2000 r.poll, Op.read sd D.sizeof_ipc r.len]
      else
        [Op.poll sd 2000 r.poll, Op.read sd D.sizeof_ipc r.len, Op.fputs_stdout r.msg.buf]
          ++ read_loop D sd rs
    else
      [Op.poll sd 2000 r.poll]

/-- `show_generic(cmd, detail)`. -/
def show_generic (D : Defs) (w : World) (cmd : Int) (detail : Int) : Result :=
  let c := do_connect D w
  let sd := c.1
  if -1 = sd then
    (-1, c.2)
  else
    let msg : ipc := { cmd := cmd, detail := detail, buf := [] }
    if w.write_ret = -1 then
      (-1, c.2 ++ [Op.write sd msg D.sizeof_ipc w.write_ret, Op.close sd])
    else
      (w.close_ret,
        c.2 ++ [Op.write sd msg D.sizeof_ipc w.write_ret] ++ read_loop D sd w.replies
          ++ [Op.close sd])

/-! ## usage, help, version -/

/-- The text `usage` prints. -/
def usage_text : CString :=
  ("Usage: mroutectl [OPTIONS] [COMMAND]\n" ++
   "\n" ++
   "Options:\n" ++
   "  -d, --detail              Detailed output, where applicable\n" ++
   "  -h, --help                This help text\n" ++
   "\n" ++
   "Commands:\n" ++
   "  help                      This help text\n" ++
   "  kill                      Kill running daemon, like SIGTERM\n" ++
   "  restart                   Restart deamon and reload .conf file, like SIGHUP\n" ++
   "  version                   Show pimd version\n" ++
   "  show status               Show pimd status, default\n" ++
   "  show igmp groups          Show IGMP group memberships\n" ++
   "  show igmp interface       Show IGMP interface status\n" ++
   "  show pim interface        Show PIM interface table\n" ++
   "  show pim neighbor         Show PIM neighbor table\n" ++
   "  show pim routes           Show PIM routing table\n" ++
   "  show pim rp               Show PIM Rendezvous-Point (RP) set\n" ++
   "  show pim crp              Show PIM Candidate Rendezvous-Point (CRP) from BSR\n" ++
   "  show pim compat           Show PIM status, compat mode, previously `pimd -r`\n").toList

/-- `usage(rc)`. -/
def usage (rc : Int) : Result :=
  (rc, [Op.fprintf_stderr usage_text])

/-- `help(arg)`. -/
def help (_arg : CString) : Result :=
  usage 0

/-- `version(arg)`: `printf("v%s\n", PACKAGE_VERSION)`. -/
def version (D : Defs) (_arg : CString) : Result :=
  (0, [Op.printf_stdout ('v' :: D.PACKAGE_VERSION ++ ['\n'])])

/-! ## string_match -/

/-- Modelled from the spec: `tolower` is a C library function, not defined in
the file. In the C locale (the program never calls `setlocale`) it maps
`A`..`Z` to `a`..`z` and leaves every other character alone. -/
def tolower (c : Char) : Char :=
  if 'A' ≤ c ∧ c ≤ 'Z' then Char.ofNat (c.toNat + 32) else c

/-- Modelled from the spec: `strlen` is a C library function, not defined in
the file: the number of characters before the NUL. -/
def strlen (s : CString) : Nat :=
  s.length

/-- Modelled from the spec: `MIN` is a macro of a header outside the file: the
smaller of its two arguments. -/
def MIN (a b : Nat) : Nat :=
  if a < b then a else b

/-- Modelled from the spec: `strncasecmp` is a C library function, not defined
in the file. It compares at most `n` characters of the two strings after
`tolower`, stops at the first difference or at the end of the strings, and
returns the difference of the two characters there (0 when there is none);
the end of a string reads as the NUL character, of value 0. -/
def strncasecmp : CString → CString → Nat → Int
  | _, _, 0 => 0
  | [], [], _ + 1 => 0
  | [], b :: _, _ + 1 => 0 - ((tolower b).toNat : Int)
  | a :: _, [], _ + 1 => ((tolower a).toNat : Int) - 0
  | a :: as, b :: bs, n + 1 =>
    if tolower a ≠ tolower b then ((tolower a).toNat : Int) - ((tolower b).toNat : Int)
    else strncasecmp as bs n

/-- `string_match(a, b)`: `!strncasecmp(a, b, MIN(strlen(a), strlen(b)))`, the
C truth value as a `Bool`. -/
def string_match (a b : CString) : Bool :=
  let min := MIN (strlen a) (strlen b)
  strncasecmp a b min == 0

/-! ## cmd_parse -/

/-- `struct cmd`: the name `cmd`, the sub-table `ctx` (NULL or a table), the
callback `cb` (NULL or a function) and the operation code `op`. -/
inductive cmd where
  | mk (name : CString) (ctx : Option (List cmd)) (cb : Option (CString → Result)) (op : Int)

/-- Field `cmd` of `struct cmd`. -/
def cmd.name : cmd → CString
  | .mk n _ _ _ => n

/-- Field `ctx` of `struct cmd`. -/
def cmd.ctx : cmd → Option (List cmd)
  | .mk _ c _ _ => c

/-- Field `cb` of `struct cmd`. -/
def cmd.cb : cmd → Option (CString → Result)
  | .mk _ _ f _ => f

/-- Field `op` of `struct cmd`. -/
def cmd.op : cmd → Int
  | .mk _ _ _ o => o

/-- Modelled from the spec: `strlcat` is a library function, not defined in the
file. `strlcat(dst, src, size)` appends `src` to the string in `dst`, a buffer
of `size` bytes, copying at most `size - strlen(dst) - 1` characters and then
the NUL; a `dst` with no NUL in its first `size` bytes is left alone. -/
def strlcat (dst src : CString) (size : Nat) : CString :=
  if size ≤ dst.length then dst else dst ++ src.take (size - dst.length - 1)

/-- The loop `for (j = 1; j < argc; j++)` of `cmd_parse` over the tokens
`argv[j], ..., argv[argc - 1]` still to append; `arg` is the buffer
`char arg[80]`. -/
def arg_loop : Nat → List CString → CString → CString
  | _, [], arg => arg
  | j, tok :: rest, arg =>
    let arg := if j > 1 then strlcat arg " ".toList 80 else arg
    let arg := strlcat arg tok 80
    arg_loop (j + 1) rest arg

/-- What `cmd_parse` does with the entry its loop stops at: the three branches
after the `string_match` test. `recur` is `cmd_parse` on the tokens after the
first, `rest` are those tokens. -/
def cmd_entry (D : Defs) (w : World) (detail : Int) (recur : List cmd → Result)
    (rest : List CString) (e : cmd) : Result :=
  match e.ctx with
  | some ctx => recur ctx
  | none =>
    match e.cb with
    | some cb => cb (arg_loop 1 rest [])
    | none => show_generic D w e.op detail

/-- The loop `for (i = 0; argc > 0 && command[i].cmd; i++)` of `cmd_parse`,
for `argc > 0`, over the entries from index `i` on; `argv0` is `argv[0]`. -/
def cmd_loop (D : Defs) (w : World) (detail : Int) (recur : List cmd → Result)
    (argv0 : CString) (rest : List CString) : List cmd → Result
  | [] => usage 1
  | e :: es =>
    if !string_match e.name argv0 then
      cmd_loop D w detail recur argv0 rest es
    else
      cmd_entry D w detail recur rest e

/-- `cmd_parse(argc, argv, command)`; `detail` is the global the function
reads. -/
def cmd_parse (D : Defs) (w : World) (detail : Int) : List CString → List cmd → Result
  | [], _ => usage 1
  | argv0 :: rest, command =>
    cmd_loop D w detail (cmd_parse D w detail rest) argv0 rest command

/-! ## main -/

/-- The table `command[]` of `main`. -/
def command (D : Defs) : List cmd :=
  [ .mk "help".toList      none (some help)        0,
    .mk "kill".toList      none none               D.IPC_KILL_CMD,
    .mk "interface".toList none none               D.IPC_SHOW_IFACE_CMD,
    .mk "iface".toList     none none               D.IPC_SHOW_IFACE_CMD,
    .mk "igmp".toList      none none               D.IPC_SHOW_IGMP_CMD,
    .mk "status".toList    none none               D.IPC_SHOW_STATUS_CMD,
    .mk "restart".toList   none none               D.IPC_RESTART_CMD,
    .mk "version".toList   none (some (version D)) 0 ]

/-- The option loop of `main`: `opts` are the values `getopt_long` returns
before `EOF`, `detail` the global. Returns the value of `detail` after the
loop, or `none` when the loop left `main` through `usage(0)`. -/
def main_opts : List Char → Int → Option Int
  | [], detail => some detail
  | c :: cs, detail =>
    if c = 'd' then main_opts cs 1
    else if c = 'h' ∨ c = '?' then none
    else main_opts cs detail

/-- `main`: `opts` are the values `getopt_long` returns before `EOF` and
`tokens` is `argv[optind], ..., argv[argc - 1]` after it. -/
def main (D : Defs) (w : World) (opts : List Char) (tokens : List CString) : Result :=
  match main_opts opts 0 with
  | none => usage 0
  | some detail =>
    if tokens.length = 0 then
      show_generic D w D.IPC_SHOW_STATUS_CMD detail
    else
      cmd_parse D w detail tokens (command D)

/-! ## Specification-side notions -/

/-- Case-insensitive "is a beginning of": `t` is no longer than `n` and the first
`strlen t` characters of `n` equal `t` after `tolower`. -/
def begins_nocase (t n : CString) : Bool :=
  decide (t.length ≤ n.length) && ((n.take t.length).map tolower == t.map tolower)

/-- Strict version: `t` is moreover shorter than `n`. -/
def strictly_begins_nocase (t n : CString) : Bool :=
  decide (t.length < n.length) && ((n.take t.length).map tolower == t.map tolower)

/-- The texts written to standard output by `fputs`, in order. -/
def stdout_writes : List Op → List CString
  | [] => []
  | Op.fputs_stdout s :: ops => s :: stdout_writes ops
  | _ :: ops => stdout_writes ops

/-- A turn after which the reply loop goes on: `poll` positive, a full frame,
operation 0. Any other turn is where the loop stops. -/
def continues (D : Defs) (r : PollRead) : Bool :=
  decide (r.poll > 0) && decide (r.len = (D.sizeof_ipc : Int)) && decide (r.msg.cmd = 0)

/-- Whether an operation is a `read` or a `poll`. -/
def Op.is_reply_op : Op → Bool
  | Op.read _ _ _ => true
  | Op.poll _ _ _ => true
  | _ => false

/-- Whether an operation is a `write`, a `read` or a `poll`. -/
def Op.is_transfer : Op → Bool
  | Op.write _ _ _ _ => true
  | Op.read _ _ _ => true
  | Op.poll _ _ _ => true
  | _ => false

/-- The tokens joined with single spaces. -/
def join_spaces (toks : List CString) : CString :=
  List.intercalate [' '] toks

/-- The text written to standard output by `fputs`: the writes, concatenated. -/
def stdout_text (ops : List Op) : CString :=
  (stdout_writes ops).flatten

/-- Whether an operation is a `close`. -/
def Op.is_close : Op → Bool
  | Op.close _ => true
  | _ => false

/-- Case variant: the two strings are equal after `tolower`. -/
def case_variant (t n : CString) : Bool :=
  t.map tolower == n.map tolower

/-! ## Concrete values used in witnesses and counterexamples -/

/-- Sample header constants. -/
def D0 : Defs :=
  { IPC_KILL_CMD := 1, IPC_SHOW_IFACE_CMD := 2, IPC_SHOW_IGMP_CMD := 3,
    IPC_SHOW_STATUS_CMD := 4, IPC_RESTART_CMD := 5, sizeof_ipc := 100,
    PACKAGE_VERSION := "4.0".toList, ENOENT := 2,
    _PATH_MROUTED_SOCK := "/var/run/mrouted.sock".toList }

/-- A zero-operation frame carrying the given text, read in full. -/
def line_frame (s : String) : PollRead :=
  { poll := 1, len := 100, msg := { cmd := 0, detail := 0, buf := s.toList } }

/-- A run in which everything succeeds: two lines, then a terminal frame. -/
def W_ok : World :=
  { socket_ret := 3, connect_ret := 0, errno := 0, write_ret := 100,
    replies := [line_frame "a\n", line_frame "b\n",
      { poll := 1, len := 100, msg := { cmd := 1, detail := 0, buf := "done".toList } }],
    close_ret := 0 }

/-- A run in which `connect` fails. -/
def W_noconn : World :=
  { W_ok with connect_ret := -1, errno := 2 }

/-- A run in which `write` fails. -/
def W_wfail : World :=
  { W_ok with write_ret := -1 }

/-- A run in which `write` is short: 1 byte out of 100. -/
def W_wshort : World :=
  { W_ok with write_ret := 1 }

/-- A table with two siblings, the name of the first beginning the name of the
second. -/
def table_i_iface : List cmd :=
  [ .mk "i".toList none none 1,
    .mk "iface".toList none none 2 ]

/-- A callback that prints its argument. -/
def echo_cb (arg : CString) : Result :=
  (0, [Op.printf_stdout arg])

/-- A table with one entry that has a callback. -/
def table_echo : List cmd :=
  [ .mk "echo".toList none (some echo_cb) 0 ]

/-! ## Lemmas on the string functions -/

theorem char_toNat_inj {a b : Char} (h : a.toNat = b.toNat) : a = b := by
  rw [← Char.ofNat_toNat a, ← Char.ofNat_toNat b, h]

theorem char_diff_ne_zero {a b : Char} (h : a ≠ b) : ((a.toNat : Int) - (b.toNat : Int)) ≠ 0 := by
  intro h0
  apply h
  apply char_toNat_inj
  omega

theorem MIN_eq_min (a b : Nat) : MIN a b = min a b := by
  unfold MIN
  split <;> omega

theorem strncasecmp_eq_zero_iff (n : Nat) : ∀ (a b : CString), n ≤ a.length → n ≤ b.length →
    (strncasecmp a b n = 0 ↔ (a.take n).map tolower = (b.take n).map tolower) := by
  induction n with
  | zero => intro a b _ _; simp [strncasecmp]
  | succ n ih =>
    intro a b ha hb
    cases a with
    | nil => simp at ha
    | cons x xs =>
      cases b with
      | nil => simp at hb
      | cons y ys =>
        simp only [List.length_cons, Nat.add_le_add_iff_right] at ha hb
        by_cases hxy : tolower x = tolower y
        · simp [strncasecmp, hxy, ih xs ys ha hb]
        · simp [strncasecmp, hxy, char_diff_ne_zero hxy]

theorem string_match_iff (a b : CString) :
    string_match a b = true ↔
      (a.take (min a.length b.length)).map tolower
        = (b.take (min a.length b.length)).map tolower := by
  unfold string_match strlen
  rw [MIN_eq_min]
  simp only [beq_iff_eq]
  exact strncasecmp_eq_zero_iff _ a b (Nat.min_le_left _ _) (Nat.min_le_right _ _)

theorem string_match_of_token_begins {n t : CString} (h : begins_nocase t n = true) :
    string_match n t = true := by
  simp only [begins_nocase, Bool.and_eq_true, decide_eq_true_eq, beq_iff_eq] at h
  rw [string_match_iff, Nat.min_eq_right h.1, h.2, List.take_length]

theorem string_match_of_name_begins {n t : CString} (h : begins_nocase n t = true) :
    string_match n t = true := by
  simp only [begins_nocase, Bool.and_eq_true, decide_eq_true_eq, beq_iff_eq] at h
  rw [string_match_iff, Nat.min_eq_left h.1, h.2, List.take_length]

/-- The converse: a match means that one of the two strings begins the other,
ignoring case. -/
theorem string_match_cases {n t : CString} (h : string_match n t = true) :
    begins_nocase t n = true ∨ begins_nocase n t = true := by
  rw [string_match_iff] at h
  rcases Nat.le_total t.length n.length with hl | hl
  · left
    rw [Nat.min_eq_right hl, List.take_length] at h
    simp [begins_nocase, hl, h]
  · right
    rw [Nat.min_eq_left hl, List.take_length] at h
    simp [begins_nocase, hl, h]

/-- C3: `string_match(a, b)` is true exactly when the first
`min(strlen a, strlen b)` characters of `a` and of `b` are equal after
`tolower`; hence it is true when the token `b` begins the entry name `a`
(ignoring case) and also when the entry name `a` begins the token `b`. -/
theorem string_match_spec (a b : CString) :
    (string_match a b = true ↔
      (a.take (min (strlen a) (strlen b))).map tolower
        = (b.take (min (strlen a) (strlen b))).map tolower)
    ∧ (begins_nocase b a = true → string_match a b = true)
    ∧ (begins_nocase a b = true → string_match a b = true) :=
  ⟨string_match_iff a b, string_match_of_token_begins, string_match_of_name_begins⟩

/-- Witness of C3 at the name `iface` and the token `IFA`, and at the name
`iface` and the longer token `ifaces`. -/
theorem string_match_spec_witness :
    string_match "iface".toList "IFA".toList = true
    ∧ string_match "iface".toList "iFaCes".toList = true :=
  ⟨(string_match_spec "iface".toList "IFA".toList).2.1 (by decide),
   (string_match_spec "iface".toList "iFaCes".toList).2.2 (by decide)⟩

/-! ## Lemmas on cmd_parse -/

theorem string_match_congr (n : CString) {t u : CString} (h : case_variant t u = true) :
    string_match n t = string_match n u := by
  simp only [case_variant, beq_iff_eq] at h
  have hl : t.length = u.length := by
    have := congrArg List.length h
    simpa using this
  rw [Bool.eq_iff_iff, string_match_iff, string_match_iff, hl, List.map_take, List.map_take,
    List.map_take, h]

theorem cmd_loop_congr (D : Defs) (w : World) (detail : Int) (recur : List cmd → Result)
    (rest : List CString) {t u : CString} (h : ∀ n, string_match n t = string_match n u)
    (table : List cmd) :
    cmd_loop D w detail recur t rest table = cmd_loop D w detail recur u rest table := by
  induction table with
  | nil => rfl
  | cons e es ih => simp only [cmd_loop, h, ih]

theorem cmd_loop_first_match (D : Defs) (w : World) (detail : Int) (recur : List cmd → Result)
    (argv0 : CString) (rest : List CString) (pre : List cmd) (e : cmd) (post : List cmd)
    (hpre : ∀ x ∈ pre, string_match x.name argv0 = false)
    (he : string_match e.name argv0 = true) :
    cmd_loop D w detail recur argv0 rest (pre ++ e :: post)
      = cmd_entry D w detail recur rest e := by
  induction pre with
  | nil => simp [cmd_loop, he]
  | cons x xs ih =>
    have hx : string_match x.name argv0 = false := hpre x (List.mem_cons_self _ _)
    have hxs : ∀ y ∈ xs, string_match y.name argv0 = false :=
      fun y hy => hpre y (List.mem_cons_of_mem _ hy)
    simp [cmd_loop, hx, ih hxs]

theorem cmd_loop_no_match (D : Defs) (w : World) (detail : Int) (recur : List cmd → Result)
    (argv0 : CString) (rest : List CString) (table : List cmd)
    (h : ∀ x ∈ table, string_match x.name argv0 = false) :
    cmd_loop D w detail recur argv0 rest table = usage 1 := by
  induction table with
  | nil => rfl
  | cons x xs ih =>
    have hx : string_match x.name argv0 = false := h x (List.mem_cons_self _ _)
    have hxs : ∀ y ∈ xs, string_match y.name argv0 = false :=
      fun y hy => h y (List.mem_cons_of_mem _ hy)
    simp [cmd_loop, hx, ih hxs]

/-- C2: `cmd_parse` acts on the entry with the lowest index whose name
`string_match`-es the first token. When no entry of `pre` matches and `e`
matches, the result on the table `pre ++ e :: post` is the effect of `e`
(recursion into `ctx`, callback, or operation code sent), whatever the later
entries `post` are and whether or not they match: replacing them by any other
entries leaves the result unchanged. -/
theorem cmd_parse_first_match (D : Defs) (w : World) (detail : Int)
    (argv0 : CString) (rest : List CString) (pre : List cmd) (e : cmd) (post : List cmd)
    (hpre : ∀ x ∈ pre, string_match x.name argv0 = false)
    (he : string_match e.name argv0 = true) :
    cmd_parse D w detail (argv0 :: rest) (pre ++ e :: post)
      = cmd_entry D w detail (cmd_parse D w detail rest) rest e
    ∧ ∀ post2 : List cmd,
        cmd_parse D w detail (argv0 :: rest) (pre ++ e :: post2)
          = cmd_parse D w detail (argv0 :: rest) (pre ++ e :: post) := by
  constructor
  · simp only [cmd_parse]
    exact cmd_loop_first_match D w detail _ argv0 rest pre e post hpre he
  · intro post2
    simp only [cmd_parse]
    rw [cmd_loop_first_match D w detail _ argv0 rest pre e post hpre he,
      cmd_loop_first_match D w detail _ argv0 rest pre e post2 hpre he]

/-- Witness of C2: in `table_i_iface` the token `i` matches both entries, `i`
(index 0, operation 1) and `iface` (index 1, operation 2); operation 1 is
sent. -/
theorem cmd_parse_first_match_witness :
    string_match "iface".toList "i".toList = true
    ∧ cmd_parse D0 W_ok 0 ["i".toList] table_i_iface = show_generic D0 W_ok 1 0 :=
  ⟨by decide,
   (cmd_parse_first_match D0 W_ok 0 "i".toList [] []
      (.mk "i".toList none none 1) [.mk "iface".toList none none 2]
      (by simp) (by decide)).1⟩

/-- Counterexample to C4 as stated: in `table_i_iface` the token `if` is a
strict beginning of exactly one name, `iface` (operation 2), yet `cmd_parse`
acts on the entry `i` declared before it (operation 1), whose name begins the
token. -/
theorem abbreviation_counterexample :
    (table_i_iface.filter (fun e => strictly_begins_nocase "if".toList e.name)).map cmd.name
        = ["iface".toList]
    ∧ cmd_parse D0 W_ok 0 ["if".toList] table_i_iface = show_generic D0 W_ok 1 0
    ∧ cmd_parse D0 W_ok 0 ["if".toList] table_i_iface ≠ show_generic D0 W_ok 2 0 := by
  decide

/-- C4, amended: when the first token is a strict beginning (ignoring case) of
the name of exactly one entry `e` of the table, and no entry declared before
`e` has a name that begins the token (ignoring case), `cmd_parse` acts on
`e`. -/
theorem cmd_parse_abbreviation (D : Defs) (w : World) (detail : Int)
    (tok : CString) (rest : List CString) (pre : List cmd) (e : cmd) (post : List cmd)
    (he : strictly_begins_nocase tok e.name = true)
    (huniq : ∀ x ∈ pre ++ post, strictly_begins_nocase tok x.name = false)
    (hshadow : ∀ x ∈ pre, begins_nocase x.name tok = false) :
    cmd_parse D w detail (tok :: rest) (pre ++ e :: post)
      = cmd_entry D w detail (cmd_parse D w detail rest) rest e := by
  have hmatch : string_match e.name tok = true := by
    apply string_match_of_token_begins
    simp only [strictly_begins_nocase, Bool.and_eq_true, decide_eq_true_eq] at he
    simp only [begins_nocase, Bool.and_eq_true, decide_eq_true_eq]
    exact ⟨Nat.le_of_lt he.1, he.2⟩
  have hpre : ∀ x ∈ pre, string_match x.name tok = false := by
    intro x hx
    by_contra hne
    have hm : string_match x.name tok = true := by simpa using hne
    rcases string_match_cases hm with h1 | h2
    · have hs := hshadow x hx
      have hu := huniq x (List.mem_append_left _ hx)
      simp only [begins_nocase, Bool.and_eq_true, decide_eq_true_eq, beq_iff_eq] at h1
      rcases Nat.lt_or_ge tok.length x.name.length with hlt | hge
      · simp [strictly_begins_nocase, hlt, h1.2] at hu
      · have hlen : x.name.length = tok.length := Nat.le_antisymm hge h1.1
        have h2 := h1.2
        rw [← hlen, List.take_length] at h2
        simp [begins_nocase, hlen, List.take_length, h2] at hs
    · rw [hshadow x hx] at h2
      exact Bool.false_ne_true h2
  simp only [cmd_parse]
  exact cmd_loop_first_match D w detail _ tok rest pre e post hpre hmatch

/-- Witness of C4, amended: in the table of `main` the token `St` abbreviates
`status` only, and no earlier name begins it. -/
theorem cmd_parse_abbreviation_witness :
    cmd_parse D0 W_ok 1 ["St".toList] (command D0)
      = show_generic D0 W_ok D0.IPC_SHOW_STATUS_CMD 1 :=
  cmd_parse_abbreviation D0 W_ok 1 "St".toList []
    [.mk "help".toList none (some help) 0,
     .mk "kill".toList none none D0.IPC_KILL_CMD,
     .mk "interface".toList none none D0.IPC_SHOW_IFACE_CMD,
     .mk "iface".toList none none D0.IPC_SHOW_IFACE_CMD,
     .mk "igmp".toList none none D0.IPC_SHOW_IGMP_CMD]
    (.mk "status".toList none none D0.IPC_SHOW_STATUS_CMD)
    [.mk "restart".toList none none D0.IPC_RESTART_CMD,
     .mk "version".toList none (some (version D0)) 0]
    (by decide) (by decide) (by decide)

theorem cmd_parse_variant (D : Defs) (w : World) (detail : Int) {t u : CString}
    (h : case_variant t u = true) (table : List cmd) :
    cmd_parse D w detail [t] table = cmd_parse D w detail [u] table := by
  simp only [cmd_parse]
  exact cmd_loop_congr D w detail _ [] (fun n => string_match_congr n h) table

/-- C5: over the table of `main`, each of the eight entry names, in any
upper/lower-case variant and given as the single token, selects its own entry:
`help` and `version` run their callback, the six others hand their operation
code and the detail flag to `show_generic`. -/
theorem command_names_select (D : Defs) (w : World) (detail : Int) (t : CString) :
    (case_variant t "help".toList = true →
      cmd_parse D w detail [t] (command D) = help [])
    ∧ (case_variant t "kill".toList = true →
      cmd_parse D w detail [t] (command D) = show_generic D w D.IPC_KILL_CMD detail)
    ∧ (case_variant t "interface".toList = true →
      cmd_parse D w detail [t] (command D) = show_generic D w D.IPC_SHOW_IFACE_CMD detail)
    ∧ (case_variant t "iface".toList = true →
      cmd_parse D w detail [t] (command D) = show_generic D w D.IPC_SHOW_IFACE_CMD detail)
    ∧ (case_variant t "igmp".toList = true →
      cmd_parse D w detail [t] (command D) = show_generic D w D.IPC_SHOW_IGMP_CMD detail)
    ∧ (case_variant t "status".toList = true →
      cmd_parse D w detail [t] (command D) = show_generic D w D.IPC_SHOW_STATUS_CMD detail)
    ∧ (case_variant t "restart".toList = true →
      cmd_parse D w detail [t] (command D) = show_generic D w D.IPC_RESTART_CMD detail)
    ∧ (case_variant t "version".toList = true →
      cmd_parse D w detail [t] (command D) = version D []) := by
  refine ⟨?_, ?_, ?_, ?_, ?_, ?_, ?_, ?_⟩ <;> intro h <;>
    rw [cmd_parse_variant D w detail h] <;> rfl

/-- Witness of C5 at the tokens `KiLL` and `VERSION`. -/
theorem command_names_select_witness :
    cmd_parse D0 W_ok 1 ["KiLL".toList] (command D0) = show_generic D0 W_ok D0.IPC_KILL_CMD 1
    ∧ cmd_parse D0 W_ok 1 ["VERSION".toList] (command D0) = version D0 [] :=
  ⟨(command_names_select D0 W_ok 1 "KiLL".toList).2.1 (by decide),
   (command_names_select D0 W_ok 1 "VERSION".toList).2.2.2.2.2.2.2 (by decide)⟩

/-! ## The argument buffer -/

theorem strlcat_take (x s : CString) :
    strlcat (x.take 79) s 80 = (x ++ s).take 79 := by
  unfold strlcat
  have hlen : (x.take 79).length = min 79 x.length := List.length_take _ _
  have hlt : ¬ 80 ≤ (x.take 79).length := by omega
  rw [if_neg hlt, List.take_append_eq_append_take, hlen]
  congr 2
  omega

theorem strlcat_length_lt (arg s : CString) (h : arg.length < 80) :
    (strlcat arg s 80).length < 80 := by
  unfold strlcat
  have hlt : ¬ 80 ≤ arg.length := by omega
  rw [if_neg hlt, List.length_append, List.length_take]
  omega

theorem arg_loop_from_two (rest : List CString) : ∀ (j : Nat) (acc : CString), 1 < j →
    arg_loop j rest (acc.take 79)
      = (acc ++ (rest.map (fun t => ' ' :: t)).flatten).take 79 := by
  induction rest with
  | nil => intro j acc _; simp [arg_loop]
  | cons t ts ih =>
    intro j acc hj
    have h1 : strlcat (acc.take 79) " ".toList 80 = (acc ++ [' ']).take 79 :=
      strlcat_take acc [' ']
    simp only [arg_loop, hj, if_true, h1, strlcat_take]
    rw [ih (j + 1) _ (by omega)]
    simp

theorem join_spaces_cons (t : CString) (ts : List CString) :
    join_spaces (t :: ts) = t ++ (ts.map (fun u => ' ' :: u)).flatten := by
  induction ts generalizing t with
  | nil => simp [join_spaces, List.intercalate]
  | cons u us ih =>
    have h := ih u
    simp only [join_spaces, List.intercalate] at h ⊢
    simp [List.intersperse, h]

theorem arg_loop_eq (rest : List CString) :
    arg_loop 1 rest [] = (join_spaces rest).take 79 := by
  cases rest with
  | nil => simp [arg_loop, join_spaces, List.intercalate]
  | cons t ts =>
    have h0 : strlcat [] t 80 = t.take 79 := by
      have := strlcat_take [] t
      simpa using this
    simp only [arg_loop, h0]
    rw [if_neg (by omega), h0, arg_loop_from_two ts 2 t (by omega), join_spaces_cons]

/-- C10: when the entry `cmd_parse` stops at has a callback and no subtree, the
callback receives the first `min(79, L)` characters of the tokens after the
matched one joined with single spaces, `L` being the length of that join, and
the empty string when there is no further token. The string in the 80-byte
buffer always has fewer than 80 characters, so that it fits with its NUL:
the buffer starts empty and no `strlcat` into it takes it to 80. -/
theorem cmd_parse_callback_arg (D : Defs) (w : World) (detail : Int)
    (tok : CString) (rest : List CString) (pre : List cmd) (e : cmd) (post : List cmd)
    (cb : CString → Result)
    (hpre : ∀ x ∈ pre, string_match x.name tok = false)
    (he : string_match e.name tok = true)
    (hctx : e.ctx = none) (hcb : e.cb = some cb) :
    cmd_parse D w detail (tok :: rest) (pre ++ e :: post)
      = cb ((join_spaces rest).take 79)
    ∧ ((join_spaces rest).take 79).length = min 79 (join_spaces rest).length
    ∧ (rest = [] → cmd_parse D w detail (tok :: rest) (pre ++ e :: post) = cb [])
    ∧ (arg_loop 1 rest []).length < 80
    ∧ (∀ arg s : CString, arg.length < 80 → (strlcat arg s 80).length < 80) := by
  have hmain : cmd_parse D w detail (tok :: rest) (pre ++ e :: post)
      = cb ((join_spaces rest).take 79) := by
    simp only [cmd_parse]
    rw [cmd_loop_first_match D w detail _ tok rest pre e post hpre he]
    simp only [cmd_entry, hctx, hcb, arg_loop_eq]
  refine ⟨hmain, List.length_take _ _, ?_, ?_, strlcat_length_lt⟩
  · intro hr
    rw [hmain, hr]
    simp [join_spaces, List.intercalate]
  · rw [arg_loop_eq, List.length_take]
    omega

/-- Witness of C10: `echo a b` hands `a b` to the callback. -/
theorem cmd_parse_callback_arg_witness :
    cmd_parse D0 W_ok 0 ["echo".toList, "a".toList, "b".toList] table_echo
      = echo_cb "a b".toList :=
  (cmd_parse_callback_arg D0 W_ok 0 "echo".toList ["a".toList, "b".toList] []
    (.mk "echo".toList none (some echo_cb) 0) [] echo_cb
    (by simp) (by decide) rfl rfl).1

/-! ## Lemmas on show_generic -/

theorem stdout_writes_append (a b : List Op) :
    stdout_writes (a ++ b) = stdout_writes a ++ stdout_writes b := by
  induction a with
  | nil => rfl
  | cons o os ih => cases o <;> simp [stdout_writes, ih]

theorem do_connect_ok {D : Defs} {w : World} (h : (do_connect D w).1 ≠ -1) :
    (do_connect D w).1 = w.socket_ret
    ∧ (do_connect D w).2
        = [Op.socket w.socket_ret, Op.connect w.socket_ret D._PATH_MROUTED_SOCK w.connect_ret] := by
  unfold do_connect at h ⊢
  by_cases h1 : (-1 : Int) = w.socket_ret
  · simp [h1] at h
  · by_cases h2 : w.connect_ret = -1
    · simp [h1, h2] at h
    · simp [h1, h2]

theorem do_connect_fail {D : Defs} {w : World} (h : (do_connect D w).1 = -1) :
    (do_connect D w).2 = Op.socket w.socket_ret :: do_connect_error D w
    ∨ (w.socket_ret ≠ -1 ∧ (do_connect D w).2
        = [Op.socket w.socket_ret, Op.connect w.socket_ret D._PATH_MROUTED_SOCK w.connect_ret,
            Op.close w.socket_ret] ++ do_connect_error D w) := by
  unfold do_connect at h ⊢
  by_cases h1 : (-1 : Int) = w.socket_ret
  · left; simp [h1]
  · by_cases h2 : w.connect_ret = -1
    · right
      refine ⟨fun h3 => h1 h3.symm, ?_⟩
      simp [h1, h2]
    · simp [h1, h2] at h
      exact absurd h.symm h1

theorem stdout_writes_do_connect (D : Defs) (w : World) :
    stdout_writes (do_connect D w).2 = [] := by
  have he : stdout_writes (do_connect_error D w) = [] := by
    unfold do_connect_error
    split <;> rfl
  unfold do_connect
  by_cases h1 : (-1 : Int) = w.socket_ret
  · simp [h1, stdout_writes, he]
  · by_cases h2 : w.connect_ret = -1
    · simp [h1, h2, stdout_writes, he]
    · simp [h1, h2, stdout_writes]

theorem stdout_writes_read_loop (D : Defs) (sd : Int) (rs : List PollRead) :
    stdout_writes (read_loop D sd rs) = (rs.takeWhile (continues D)).map (fun r => r.msg.buf) := by
  induction rs with
  | nil => rfl
  | cons r rs ih =>
    unfold read_loop
    by_cases hp : r.poll > 0
    · by_cases hl : r.len = (D.sizeof_ipc : Int)
      · by_cases hc : r.msg.cmd = 0
        · have hcont : continues D r = true := by simp [continues, hp, hl, hc]
          simp [hp, hl, hc, hcont, stdout_writes, ih]
        · have hcont : continues D r = false := by simp [continues, hc]
          simp [hp, hl, hc, hcont, stdout_writes]
      · have hcont : continues D r = false := by simp [continues, hl]
        simp [hp, hl, hcont, stdout_writes]
    · have hcont : continues D r = false := by simp [continues, hp]
      simp [hp, hcont, stdout_writes]

theorem read_loop_no_close (D : Defs) (sd : Int) (rs : List PollRead) :
    (read_loop D sd rs).filter Op.is_close = [] := by
  induction rs with
  | nil => rfl
  | cons r rs ih =>
    unfold read_loop
    split
    · split
      · rfl
      · simp [List.filter_cons, Op.is_close, ih]
    · rfl

theorem show_generic_ok {D : Defs} {w : World} (cmd detail : Int)
    (hc : (do_connect D w).1 ≠ -1) (hw : w.write_ret ≠ -1) :
    show_generic D w cmd detail
      = (w.close_ret,
          [Op.socket w.socket_ret,
           Op.connect w.socket_ret D._PATH_MROUTED_SOCK w.connect_ret,
           Op.write w.socket_ret { cmd := cmd, detail := detail, buf := [] } D.sizeof_ipc
             w.write_ret]
          ++ read_loop D w.socket_ret w.replies ++ [Op.close w.socket_ret]) := by
  have h := do_connect_ok hc
  have hc2 : ¬ ((-1 : Int) = (do_connect D w).1) := fun h3 => hc h3.symm
  unfold show_generic
  simp only [hc2, if_false, hw]
  rw [h.1, h.2]
  simp

theorem show_generic_wfail {D : Defs} {w : World} (cmd detail : Int)
    (hc : (do_connect D w).1 ≠ -1) (hw : w.write_ret = -1) :
    show_generic D w cmd detail
      = (-1,
          [Op.socket w.socket_ret,
           Op.connect w.socket_ret D._PATH_MROUTED_SOCK w.connect_ret,
           Op.write w.socket_ret { cmd := cmd, detail := detail, buf := [] } D.sizeof_ipc (-1),
           Op.close w.socket_ret]) := by
  have h := do_connect_ok hc
  have hc2 : ¬ ((-1 : Int) = (do_connect D w).1) := fun h3 => hc h3.symm
  unfold show_generic
  simp only [hc2, if_false, hw, if_true]
  rw [h.1, h.2]
  simp

theorem show_generic_noconn {D : Defs} {w : World} (cmd detail : Int)
    (hc : (do_connect D w).1 = -1) :
    show_generic D w cmd detail = (-1, (do_connect D w).2) := by
  unfold show_generic
  simp [hc]

theorem takeWhile_until_stop {α : Type} (p : α → Bool) (zs : List α) (t : α) (more : List α)
    (hz : ∀ z ∈ zs, p z = true) (ht : p t = false) :
    (zs ++ t :: more).takeWhile p = zs := by
  induction zs with
  | nil => simp [List.takeWhile, ht]
  | cons z zs ih =>
    have h1 : p z = true := hz z (List.mem_cons_self _ _)
    have h2 : ∀ y ∈ zs, p y = true := fun y hy => hz y (List.mem_cons_of_mem _ hy)
    simp [List.takeWhile, h1, ih h2]

theorem takeWhile_all {α : Type} (p : α → Bool) (zs : List α)
    (hz : ∀ z ∈ zs, p z = true) :
    zs.takeWhile p = zs := by
  induction zs with
  | nil => rfl
  | cons z zs ih =>
    have h1 : p z = true := hz z (List.mem_cons_self _ _)
    have h2 : ∀ y ∈ zs, p y = true := fun y hy => hz y (List.mem_cons_of_mem _ hy)
    simp [List.takeWhile, h1, ih h2]

theorem stdout_writes_show_generic {D : Defs} {w : World} (cmd detail : Int)
    (hc : (do_connect D w).1 ≠ -1) (hw : w.write_ret ≠ -1) :
    stdout_writes (show_generic D w cmd detail).2
      = (w.replies.takeWhile (continues D)).map (fun r => r.msg.buf) := by
  rw [show_generic_ok cmd detail hc hw]
  simp [stdout_writes_append, stdout_writes, stdout_writes_read_loop]

theorem count_close_eq (sd : Int) (l : List Op) :
    l.count (Op.close sd) = (l.filter Op.is_close).count (Op.close sd) := by
  induction l with
  | nil => rfl
  | cons o os ih =>
    cases o with
    | close x =>
      rw [List.filter_cons_of_pos (by rfl), List.count_cons, List.count_cons, ih]
    | _ =>
      rw [List.filter_cons_of_neg (by simp [Op.is_close]), List.count_cons, ih]
      simp

/-! ## The session: claims -/

/-- C6: after a successful connect and a write that did not fail (in
particular a full write), whatever the turns of the reply loop are, the texts
`show_generic` writes to standard output are exactly the text buffers, in
arrival order, of the frames before the first turn at which the loop stops
(`poll` not positive, short read, or non-zero operation), and the text written
is their concatenation; the text of the stopping frame is not written. Hence
`N` full zero-operation frames followed by a full frame with a non-zero
operation give exactly the `N` texts, and `k` zero-operation frames followed
by a timeout (a `poll` that is not positive, or no further turn) give exactly
those `k` texts. -/
theorem show_generic_prints (D : Defs) (w : World) (cmd detail : Int)
    (hc : (do_connect D w).1 ≠ -1) (hw : w.write_ret ≠ -1) :
    stdout_writes (show_generic D w cmd detail).2
      = (w.replies.takeWhile (continues D)).map (fun r => r.msg.buf)
    ∧ stdout_text (show_generic D w cmd detail).2
      = ((w.replies.takeWhile (continues D)).map (fun r => r.msg.buf)).flatten
    ∧ (∀ (zs : List PollRead) (term : PollRead) (more : List PollRead),
        w.replies = zs ++ term :: more → (∀ z ∈ zs, continues D z = true) →
        term.poll > 0 → term.len = (D.sizeof_ipc : Int) → term.msg.cmd ≠ 0 →
        stdout_writes (show_generic D w cmd detail).2 = zs.map (fun r => r.msg.buf))
    ∧ (∀ (zs : List PollRead) (tmo : PollRead) (more : List PollRead),
        w.replies = zs ++ tmo :: more → (∀ z ∈ zs, continues D z = true) →
        tmo.poll ≤ 0 →
        stdout_writes (show_generic D w cmd detail).2 = zs.map (fun r => r.msg.buf))
    ∧ ((∀ z ∈ w.replies, continues D z = true) →
        stdout_writes (show_generic D w cmd detail).2
          = w.replies.map (fun r => r.msg.buf)) := by
  have hmain := stdout_writes_show_generic cmd detail hc hw
  refine ⟨hmain, ?_, ?_, ?_, ?_⟩
  · unfold stdout_text
    rw [hmain]
  · intro zs term more hr hz _ _ hcmd
    have hstop : continues D term = false := by simp [continues, hcmd]
    rw [hmain, hr, takeWhile_until_stop _ zs term more hz hstop]
  · intro zs tmo more hr hz hp
    have hstop : continues D tmo = false := by
      have : ¬ tmo.poll > 0 := by omega
      simp [continues, this]
    rw [hmain, hr, takeWhile_until_stop _ zs tmo more hz hstop]
  · intro hz
    rw [hmain, takeWhile_all _ _ hz]

/-- Witness of C6: two lines and a terminal frame carrying `done`; the two
lines are written, `done` is not. -/
theorem show_generic_prints_witness :
    stdout_writes (show_generic D0 W_ok 4 0).2 = ["a\n".toList, "b\n".toList] :=
  (show_generic_prints D0 W_ok 4 0 (by decide) (by decide)).2.2.1
    [line_frame "a\n", line_frame "b\n"]
    { poll := 1, len := 100, msg := { cmd := 1, detail := 0, buf := "done".toList } } []
    rfl (by decide) (by decide) (by decide) (by decide)

/-- Counterexample to C7 as stated: `write` returns 1 instead of the frame
size 100, and the session goes on: the reply frames are read, their text is
written, and the status is the result of `close`, 0. -/
theorem short_write_counterexample :
    (do_connect D0 W_wshort).1 ≠ -1
    ∧ W_wshort.write_ret ≠ (D0.sizeof_ipc : Int)
    ∧ (show_generic D0 W_wshort 4 0).1 = 0
    ∧ Op.read 3 100 100 ∈ (show_generic D0 W_wshort 4 0).2
    ∧ stdout_writes (show_generic D0 W_wshort 4 0).2 = ["a\n".toList, "b\n".toList] := by
  decide

/-- C7, amended: after a successful connect, when the write of the request
frame fails (returns -1), the session is a hard failure: the connection is
closed right after the write, no reply frame is polled for, read or printed,
and -1 is returned. -/
theorem show_generic_write_fails (D : Defs) (w : World) (cmd detail : Int)
    (hc : (do_connect D w).1 ≠ -1) (hw : w.write_ret = -1) :
    (show_generic D w cmd detail).1 = -1
    ∧ (show_generic D w cmd detail).2
        = [Op.socket w.socket_ret,
           Op.connect w.socket_ret D._PATH_MROUTED_SOCK w.connect_ret,
           Op.write w.socket_ret { cmd := cmd, detail := detail, buf := [] } D.sizeof_ipc (-1),
           Op.close w.socket_ret]
    ∧ (∀ o ∈ (show_generic D w cmd detail).2, o.is_reply_op = false)
    ∧ stdout_writes (show_generic D w cmd detail).2 = [] := by
  rw [show_generic_wfail cmd detail hc hw]
  refine ⟨rfl, rfl, ?_, rfl⟩
  intro o ho
  simp only [List.mem_cons, List.mem_singleton, List.not_mem_nil, or_false] at ho
  rcases ho with h | h | h | h <;> rw [h] <;> rfl

/-- Witness of C7, amended. -/
theorem show_generic_write_fails_witness :
    (show_generic D0 W_wfail 4 0).1 = -1 :=
  (show_generic_write_fails D0 W_wfail 4 0 (by decide) (by decide)).1

/-- C8: the status `show_generic` returns does not depend on the reply stream:
two runs that differ only in the turns of the reply loop return the same
value, which is -1 if `do_connect` fails or `write` returns -1 and the result
of `close` otherwise. -/
theorem show_generic_status (D : Defs) (w : World) (cmd detail : Int)
    (r1 r2 : List PollRead) :
    (show_generic D { w with replies := r1 } cmd detail).1
      = (show_generic D { w with replies := r2 } cmd detail).1
    ∧ (show_generic D w cmd detail).1
      = if (do_connect D w).1 = -1 ∨ w.write_ret = -1 then -1 else w.close_ret := by
  have key : ∀ v : World, (show_generic D v cmd detail).1
      = if (do_connect D v).1 = -1 ∨ v.write_ret = -1 then -1 else v.close_ret := by
    intro v
    by_cases hc : (do_connect D v).1 = -1
    · rw [show_generic_noconn cmd detail hc]
      simp [hc]
    · by_cases hw : v.write_ret = -1
      · rw [show_generic_wfail cmd detail hc hw]
        simp [hw]
      · rw [show_generic_ok cmd detail hc hw]
        simp [hc, hw]
  refine ⟨?_, key w⟩
  rw [key, key]
  rfl

/-- C9: when `do_connect` returns a descriptor, whatever `write` returns and
whatever the turns of the reply loop are, `show_generic` issues `close` on
that descriptor exactly once, as its last operation, and no other `close`.
When `do_connect` fails, `show_generic` returns -1 and performs no operation
of its own: no `write`, `poll` or `read` occurs, and the only `close` there
can be is the one `do_connect` issues on the descriptor `socket` gave it
(which is not -1) after a failed `connect`. -/
theorem show_generic_closes (D : Defs) (w : World) (cmd detail : Int) :
    ((do_connect D w).1 ≠ -1 →
      (show_generic D w cmd detail).2.getLast? = some (Op.close (do_connect D w).1)
      ∧ (show_generic D w cmd detail).2.filter Op.is_close = [Op.close (do_connect D w).1]
      ∧ (show_generic D w cmd detail).2.count (Op.close (do_connect D w).1) = 1)
    ∧ ((do_connect D w).1 = -1 →
      (show_generic D w cmd detail).1 = -1
      ∧ (show_generic D w cmd detail).2 = (do_connect D w).2
      ∧ (∀ o ∈ (show_generic D w cmd detail).2, o.is_transfer = false)
      ∧ (∀ sd : Int, Op.close sd ∈ (show_generic D w cmd detail).2 →
          sd = w.socket_ret ∧ sd ≠ -1)) := by
  constructor
  · intro hc
    have hsd := (do_connect_ok hc).1
    have hfilter : (show_generic D w cmd detail).2.filter Op.is_close
        = [Op.close (do_connect D w).1] := by
      rw [hsd]
      by_cases hw : w.write_ret = -1
      · rw [show_generic_wfail cmd detail hc hw]
        rfl
      · rw [show_generic_ok cmd detail hc hw]
        simp [List.filter_cons, Op.is_close, read_loop_no_close]
    refine ⟨?_, hfilter, ?_⟩
    · rw [hsd]
      by_cases hw : w.write_ret = -1
      · rw [show_generic_wfail cmd detail hc hw]
        rfl
      · rw [show_generic_ok cmd detail hc hw]
        exact List.getLast?_concat _
    · rw [count_close_eq, hfilter]
      simp
  · intro hc
    rw [show_generic_noconn cmd detail hc]
    have herr : ∀ o ∈ do_connect_error D w, o.is_transfer = false ∧ o.is_close = false := by
      intro o ho
      unfold do_connect_error at ho
      split at ho <;> simp at ho <;> rw [ho] <;> exact ⟨rfl, rfl⟩
    refine ⟨rfl, rfl, ?_, ?_⟩
    · intro o ho
      rcases do_connect_fail hc with h | ⟨_, h⟩
      · rw [h] at ho
        simp only [List.mem_cons] at ho
        rcases ho with h1 | h1
        · rw [h1]; rfl
        · exact (herr o h1).1
      · rw [h] at ho
        simp only [List.mem_append, List.mem_cons, List.mem_singleton, List.not_mem_nil,
          or_false] at ho
        rcases ho with (h1 | h1 | h1) | h1
        · rw [h1]; rfl
        · rw [h1]; rfl
        · rw [h1]; rfl
        · exact (herr o h1).1
    · intro sd ho
      rcases do_connect_fail hc with h | ⟨hne, h⟩
      · rw [h] at ho
        simp only [List.mem_cons] at ho
        rcases ho with h1 | h1
        · cases h1
        · have := (herr _ h1).2
          simp [Op.is_close] at this
      · rw [h] at ho
        simp only [List.mem_append, List.mem_cons, List.mem_singleton, List.not_mem_nil,
          or_false] at ho
        rcases ho with (h1 | h1 | h1) | h1
        · cases h1
        · cases h1
        · cases h1
          exact ⟨rfl, hne⟩
        · have := (herr _ h1).2
          simp [Op.is_close] at this

/-- Witness of C9: a run that succeeds closes descriptor 3 last and once; a run
in which `connect` fails returns -1. -/
theorem show_generic_closes_witness :
    (show_generic D0 W_ok 4 0).2.getLast? = some (Op.close 3)
    ∧ (show_generic D0 W_noconn 4 0).1 = -1 :=
  ⟨((show_generic_closes D0 W_ok 4 0).1 (by decide)).1,
   ((show_generic_closes D0 W_noconn 4 0).2 (by decide)).1⟩

/-! ## main -/

theorem show_generic_ne_usage (D : Defs) (w : World) (cmd detail : Int) (rc : Int) :
    show_generic D w cmd detail ≠ usage rc := by
  intro h
  have h2 : (show_generic D w cmd detail).2.head? = (usage rc).2.head? := by rw [h]
  have h3 : (show_generic D w cmd detail).2.head? = some (Op.socket w.socket_ret) := by
    by_cases hc : (do_connect D w).1 = -1
    · rw [show_generic_noconn cmd detail hc]
      rcases do_connect_fail hc with h4 | ⟨_, h4⟩ <;> rw [h4] <;> rfl
    · by_cases hw : w.write_ret = -1
      · rw [show_generic_wfail cmd detail hc hw]
        rfl
      · rw [show_generic_ok cmd detail hc hw]
        rfl
  rw [h3] at h2
  simp [usage] at h2

/-- C1, as the code behaves: with no command token `main` hands
`IPC_SHOW_STATUS_CMD` and the detail flag to `show_generic`, but with the two
tokens `show` `status` no entry of the table matches `show`, so `main` prints
the usage text and returns 1 without calling `show_generic`; the two runs
always differ. -/
theorem main_show_status (D : Defs) (w : World) :
    main D w [] [] = show_generic D w D.IPC_SHOW_STATUS_CMD 0
    ∧ main D w ['d'] [] = show_generic D w D.IPC_SHOW_STATUS_CMD 1
    ∧ main D w [] ["show".toList, "status".toList] = usage 1
    ∧ main D w ['d'] ["show".toList, "status".toList] = usage 1
    ∧ main D w [] ["show".toList, "status".toList] ≠ main D w [] []
    ∧ main D w ['d'] ["show".toList, "status".toList] ≠ main D w ['d'] [] := by
  have h1 : main D w [] [] = show_generic D w D.IPC_SHOW_STATUS_CMD 0 := rfl
  have h2 : main D w ['d'] [] = show_generic D w D.IPC_SHOW_STATUS_CMD 1 := rfl
  have h3 : main D w [] ["show".toList, "status".toList] = usage 1 := rfl
  have h4 : main D w ['d'] ["show".toList, "status".toList] = usage 1 := rfl
  refine ⟨h1, h2, h3, h4, ?_, ?_⟩
  · rw [h1, h3]
    exact fun h => show_generic_ne_usage D w _ _ _ h.symm
  · rw [h2, h4]
    exact fun h => show_generic_ne_usage D w _ _ _ h.symm

end Mroutectl
